import Mathlib

/-!
# Link-time shim for a prebuilt libpcap on Android/bionic

A shallow embedding of `scripts/gnu_strerror_r.c` and the properties of its
four symbol groups:

* `__gnu_strerror_r`  (forwarding to the platform `strerror_r`),
* `stdin`, `stdout`, `stderr`  (aliases of the slots of `__sF`),
* `getifaddrs`, `freeifaddrs`  (stubs),
* `ftello64`  (forwarding to the platform `ftell`).

Memory is modelled at cell granularity: an object is a block of cells, a cell
holds one scalar (a byte, a pointer) or one `FILE` object, and a pointer is
either `NULL` or the location of a cell.  A C function is a function from the
pre-state to `Option (result × post-state)`, where `none` stands for a fault
(an access through a pointer that designates no cell).  The platform
primitives `strerror_r` and `ftell` are not part of the shim; they are taken
as parameters (`Libc`), and a reference instance following their C library
contracts is given for concrete evaluation.
-/

namespace GnuShim

/-! ## Data model -/

/-- Objects of the process image. -/
inductive Block where
  /-- the platform stream table `__sF` -/
  | sF_table
  /-- the exported variable `stdin` -/
  | stdin_var
  /-- the exported variable `stdout` -/
  | stdout_var
  /-- the exported variable `stderr` -/
  | stderr_var
  /-- any other object (stack, heap or static) -/
  | other (id : Nat)
  deriving DecidableEq, Repr

/-- A location: element `off` of the object `blk`. -/
structure Loc where
  blk : Block
  off : Nat
  deriving DecidableEq, Repr

/-- A C pointer value: `NULL`, or the address of a location. -/
inductive Ptr where
  | null
  | loc (l : Loc)
  deriving DecidableEq, Repr

/-- Pointer arithmetic `p + k` inside an object (`NULL` stays `NULL`). -/
def Ptr.add : Ptr → Nat → Ptr
  | .null, _ => .null
  | .loc l, k => .loc ⟨l.blk, l.off + k⟩

/-- The content of one cell. -/
inductive Val where
  /-- indeterminate content -/
  | undef
  /-- a `char` -/
  | byte (b : Nat)
  /-- a pointer (of any pointee type) -/
  | ptr (p : Ptr)
  /-- a `FILE` object of an open stream, with its file-position indicator -/
  | file (pos : Nat)
  deriving DecidableEq, Repr

/-- The program state: the content of every location, `none` where there is
no cell. -/
structure State where
  mem : Loc → Option Val

/-- Read through a pointer; `none` is a fault. -/
def State.load (s : State) : Ptr → Option Val
  | .null => none
  | .loc l => s.mem l

/-- A pointer is valid in a state when it designates a cell. -/
def State.valid (s : State) (p : Ptr) : Bool :=
  (s.load p).isSome

/-- Write a scalar through a pointer; `none` is a fault (no cell there).  The
designated cell is replaced as a whole.  That is the extent of the write when
the cell holds an object of the kind stored (a pointer written to a pointer
cell, a byte to a byte cell); statements about what a write leaves untouched
are made for such cells only. -/
def State.store (s : State) (p : Ptr) (v : Val) : Option State :=
  match p with
  | .null => none
  | .loc l =>
    if (s.mem l).isSome then
      some ⟨fun k => if k = l then some v else s.mem k⟩
    else none

/-! ## Integer types -/

/-- Source line 8, `#define _FILE_OFFSET_BITS 64`: the width of `off_t`. -/
def _FILE_OFFSET_BITS : Nat := 64

/-- The constant `LONG_MAX` for a `long` of `longBits` bits. -/
def LONG_MAX (longBits : Nat) : Int := 2 ^ (longBits - 1) - 1

/-- The constant `LONG_MIN` for a `long` of `longBits` bits. -/
def LONG_MIN (longBits : Nat) : Int := -(2 ^ (longBits - 1))

/-- The value is representable in a `long` of `longBits` bits. -/
def isLong (longBits : Nat) (v : Int) : Prop :=
  LONG_MIN longBits ≤ v ∧ v ≤ LONG_MAX longBits

instance (longBits : Nat) (v : Int) : Decidable (isLong longBits v) := by
  unfold isLong; infer_instance

/-- Conversion of an integer to a signed two-complement type of `bits` bits. -/
def wrapSigned (bits : Nat) (v : Int) : Int :=
  (v + 2 ^ (bits - 1)) % 2 ^ bits - 2 ^ (bits - 1)

/-- The cast `(off_t)v`. -/
def off_t_cast (v : Int) : Int := wrapSigned _FILE_OFFSET_BITS v

/-! ## Platform primitives -/

/-- The two C library primitives the shim forwards to, for a platform whose
`long` has `longBits` bits.  `strerror_r errnum buf buflen` returns an `int`
status; `ftell stream` returns a `long`. -/
structure Libc (longBits : Nat) where
  strerror_r : Int → Ptr → Nat → State → Option (Int × State)
  ftell : Ptr → State → Option (Int × State)
  ftell_long : ∀ stream s v s', ftell stream s = some (v, s') → isLong longBits v

/-! ## The shim -/

/-- Source lines 14-17:
`char *__gnu_strerror_r(int errnum, char *buf, size_t buflen)`. -/
def __gnu_strerror_r {w : Nat} (L : Libc w) (errnum : Int) (buf : Ptr) (buflen : Nat)
    (s : State) : Option (Ptr × State) :=
  match L.strerror_r errnum buf buflen s with   -- (void)strerror_r(errnum, buf, buflen);
  | none => none
  | some (_, s') => some (buf, s')               -- return buf;

/-- Source line 23: `extern FILE __sF[3];` (the declared number of slots). -/
def __sF_size : Nat := 3

/-- The address `&__sF[i]`. -/
def __sF (i : Fin __sF_size) : Ptr := .loc ⟨.sF_table, i.val⟩

/-- The exported variable `stdin` (its location). -/
def stdin : Loc := ⟨.stdin_var, 0⟩

/-- The exported variable `stdout` (its location). -/
def stdout : Loc := ⟨.stdout_var, 0⟩

/-- The exported variable `stderr` (its location). -/
def stderr : Loc := ⟨.stderr_var, 0⟩

/-- Source lines 24-26: the state at process start.  The three variables hold
their static initialisers; every other location is as the environment `env`
provides it. -/
def initialState (env : State) : State :=
  ⟨fun l =>
    if l = stdin then some (.ptr (__sF ⟨0, by decide⟩))        -- FILE *stdin  = &__sF[0];
    else if l = stdout then some (.ptr (__sF ⟨1, by decide⟩))  -- FILE *stdout = &__sF[1];
    else if l = stderr then some (.ptr (__sF ⟨2, by decide⟩))  -- FILE *stderr = &__sF[2];
    else env.mem l⟩

/-- Source lines 31-34: `int getifaddrs(struct ifaddrs **ifap)`. -/
def getifaddrs (ifap : Ptr) (s : State) : Option (Int × State) :=
  match s.store ifap (.ptr .null) with   -- *ifap = NULL;
  | none => none
  | some s' => some (0, s')              -- return 0;

/-- Source lines 36-38: `void freeifaddrs(struct ifaddrs *ifa)`. -/
def freeifaddrs (_ifa : Ptr) (s : State) : Option (Unit × State) :=
  some ((), s)                           -- (void)ifa;

/-- Source lines 41-43: `off_t ftello64(FILE *stream)`. -/
def ftello64 {w : Nat} (L : Libc w) (stream : Ptr) (s : State) : Option (Int × State) :=
  match L.ftell stream s with
  | none => none
  | some (v, s') => some (off_t_cast v, s')   -- return (off_t)ftell(stream);

/-! ## Call sequences -/

/-- One call of an operation of the shim, with its arguments. -/
inductive Call where
  | gnu_strerror_r (errnum : Int) (buf : Ptr) (buflen : Nat)
  | getifaddrs (ifap : Ptr)
  | freeifaddrs (ifa : Ptr)
  | ftello64 (stream : Ptr)

/-- The post-state of one call (`none` when the call faults). -/
def exec {w : Nat} (L : Libc w) (c : Call) (s : State) : Option State :=
  match c with
  | .gnu_strerror_r errnum buf buflen => (__gnu_strerror_r L errnum buf buflen s).map Prod.snd
  | .getifaddrs ifap => (getifaddrs ifap s).map Prod.snd
  | .freeifaddrs ifa => (freeifaddrs ifa s).map Prod.snd
  | .ftello64 stream => (ftello64 L stream s).map Prod.snd

/-- The post-state of a finite sequence of calls. -/
def run {w : Nat} (L : Libc w) : List Call → State → Option State
  | [], s => some s
  | c :: cs, s =>
    match exec L c s with
    | none => none
    | some s' => run L cs s'

/-! ## A reference instance of the platform primitives

The primitives are external to the shim.  The instance below follows their
C library contracts and serves to evaluate the shim on concrete inputs. -/

/-- The status `ERANGE`. -/
def ERANGE : Int := 34

/-- The status `EINVAL`. -/
def EINVAL : Int := 22

/-- The message of an error code, as character codes (an excerpt of the
platform table); `none` for a code without an entry. -/
def errorMessage (errnum : Int) : Option (List Nat) :=
  if errnum = 1 then some ("Operation not permitted".toList.map Char.toNat)
  else if errnum = 2 then some ("No such file or directory".toList.map Char.toNat)
  else none

/-- Write the given bytes to consecutive cells starting at `l`. -/
def storeBytes (s : State) (l : Loc) : List Nat → Option State
  | [] => some s
  | b :: bs =>
    match s.store (.loc l) (.byte b) with
    | none => none
    | some s' => storeBytes s' ⟨l.blk, l.off + 1⟩ bs

/-- Reference `strerror_r`: copies the message, truncated to `buflen - 1`
characters and NUL-terminated, into `buf`; writes nothing when `buflen` is 0.
The status is 0, or `ERANGE` when the message was truncated, or `EINVAL` for
an unknown code (for which the text "Unknown error" is produced). -/
def ref_strerror_r (errnum : Int) (buf : Ptr) (buflen : Nat) (s : State) :
    Option (Int × State) :=
  let known := errorMessage errnum
  let msg := known.getD ("Unknown error".toList.map Char.toNat)
  if buflen = 0 then some (ERANGE, s)
  else
    match buf with
    | .null => none
    | .loc l =>
      match storeBytes s l (msg.take (buflen - 1) ++ [0]) with
      | none => none
      | some s' =>
        some (if buflen ≤ msg.length then ERANGE else if known.isNone then EINVAL else 0, s')

/-- Reference `ftell`: the file-position indicator of the stream when it is
representable in a `long`, otherwise the error value -1 (`EOVERFLOW`); -1 as
well when the cell holds no open stream (`EBADF`).  The state is unchanged. -/
def ref_ftell (longBits : Nat) (stream : Ptr) (s : State) : Option (Int × State) :=
  match s.load stream with
  | none => none
  | some (.file pos) =>
    if (pos : Int) ≤ LONG_MAX longBits then some ((pos : Int), s) else some (-1, s)
  | some _ => some (-1, s)

/-- The reference primitives as an instance of `Libc`. -/
def refLibc (longBits : Nat) : Libc longBits where
  strerror_r := ref_strerror_r
  ftell := ref_ftell longBits
  ftell_long := by
    intro stream s v s' h
    have hpow : (1 : Int) ≤ 2 ^ (longBits - 1) := one_le_pow₀ (by norm_num)
    unfold ref_ftell at h
    unfold isLong LONG_MIN LONG_MAX
    split at h
    · exact absurd h (by simp)
    · split at h
      · next hle =>
        simp only [Option.some.injEq, Prod.mk.injEq] at h
        unfold LONG_MAX at hle
        omega
      · simp only [Option.some.injEq, Prod.mk.injEq] at h
        omega
    · simp only [Option.some.injEq, Prod.mk.injEq] at h
      omega

/-! ## A concrete environment for evaluation -/

/-- A small process image: the three open standard streams in `__sF`, a
pointer cell holding the head of an interface list (object 0) whose node is
object 1, an 8-byte buffer (object 2), a stream advanced by `2^31` bytes
(object 3) and a stream advanced by 1000 bytes (object 4). -/
def sampleEnv : State :=
  ⟨fun l =>
    match l with
    | ⟨.sF_table, i⟩ => if i < __sF_size then some (.file 0) else none
    | ⟨.other 0, 0⟩ => some (.ptr (.loc ⟨.other 1, 0⟩))
    | ⟨.other 1, 0⟩ => some (.ptr .null)
    | ⟨.other 2, i⟩ => if i < 8 then some (.byte 170) else none
    | ⟨.other 3, 0⟩ => some (.file (2 ^ 31))
    | ⟨.other 4, 0⟩ => some (.file 1000)
    | _ => none⟩

/-- The sample process at start. -/
def sampleState : State := initialState sampleEnv

/-- The three stream variables hold the same values in both states. -/
def sameStreamVars (s t : State) : Prop :=
  t.mem stdin = s.mem stdin ∧ t.mem stdout = s.mem stdout ∧ t.mem stderr = s.mem stderr

/-- The pointer is the address of one of the three stream variables. -/
def isStreamVar (p : Ptr) : Bool :=
  p = .loc stdin || p = .loc stdout || p = .loc stderr

/-! ## Basic facts about memory -/

theorem State.store_of_valid (s : State) (l : Loc) (v : Val)
    (h : s.valid (.loc l) = true) :
    s.store (.loc l) v = some ⟨fun k => if k = l then some v else s.mem k⟩ := by
  unfold State.valid State.load at h
  simp [State.store, h]

theorem State.store_cases (s : State) (p : Ptr) (v : Val) (s' : State)
    (h : s.store p v = some s') :
    ∃ l, p = .loc l ∧ (s.mem l).isSome = true ∧
      s' = ⟨fun k => if k = l then some v else s.mem k⟩ := by
  cases p with
  | null => simp [State.store] at h
  | loc l =>
    refine ⟨l, rfl, ?_⟩
    unfold State.store at h
    by_cases hv : (s.mem l).isSome = true
    · simp only [hv, if_true, Option.some.injEq] at h
      exact ⟨hv, h.symm⟩
    · simp [hv] at h

theorem State.store_frame (s : State) (p : Ptr) (v : Val) (s' : State)
    (h : s.store p v = some s') (k : Loc) (hk : Ptr.loc k ≠ p) :
    s'.mem k = s.mem k := by
  obtain ⟨l, rfl, _, rfl⟩ := State.store_cases s p v s' h
  have : k ≠ l := fun e => hk (by rw [e])
  simp [this]

theorem sameStreamVars_of_frame (p : Ptr) (s s' : State)
    (hframe : ∀ l, Ptr.loc l ≠ p → s'.mem l = s.mem l)
    (hp : isStreamVar p = false) : sameStreamVars s s' := by
  simp only [isStreamVar, Bool.or_eq_false_iff, decide_eq_false_iff_not] at hp
  obtain ⟨⟨h1, h2⟩, h3⟩ := hp
  exact ⟨hframe _ (fun e => h1 e.symm), hframe _ (fun e => h2 e.symm),
    hframe _ (fun e => h3 e.symm)⟩

/-! ## The interface-enumeration stubs -/

/-- Claim C1: for every pointer `ifap` that designates a cell, whatever the
cell holds, `getifaddrs ifap` returns the status 0 and leaves `NULL` in the
cell; and no call of `getifaddrs`, on any argument and state, returns a
status other than 0. -/
theorem getifaddrs_returns_zero_and_null (ifap : Ptr) (s : State)
    (hvalid : s.valid ifap = true) :
    (∃ s', getifaddrs ifap s = some (0, s') ∧ s'.load ifap = some (.ptr .null)) ∧
    (∀ (p : Ptr) (t : State) (status : Int) (t' : State),
      getifaddrs p t = some (status, t') → status = 0) := by
  constructor
  · cases ifap with
    | null => simp [State.valid, State.load] at hvalid
    | loc l =>
      refine ⟨⟨fun k => if k = l then some (.ptr .null) else s.mem k⟩, ?_, ?_⟩
      · simp [getifaddrs, State.store_of_valid s l _ hvalid]
      · simp [State.load]
  · intro p t status t' h
    unfold getifaddrs at h
    split at h
    · exact absurd h (by simp)
    · simp only [Option.some.injEq, Prod.mk.injEq] at h
      exact h.1.symm

/-- Evaluation of `getifaddrs_returns_zero_and_null` on the sample process, at
the cell of object 0, which holds a non-null list head before the call. -/
theorem getifaddrs_returns_zero_and_null_witness :
    sampleState.load (.loc ⟨.other 0, 0⟩) = some (.ptr (.loc ⟨.other 1, 0⟩)) ∧
    ((∃ s', getifaddrs (.loc ⟨.other 0, 0⟩) sampleState = some (0, s') ∧
        s'.load (.loc ⟨.other 0, 0⟩) = some (.ptr .null)) ∧
     (∀ (p : Ptr) (t : State) (status : Int) (t' : State),
        getifaddrs p t = some (status, t') → status = 0)) :=
  ⟨by decide, getifaddrs_returns_zero_and_null (.loc ⟨.other 0, 0⟩) sampleState (by decide)⟩

/-- Claim C5: for every argument `ifa`, `NULL` included, `freeifaddrs ifa`
completes (it does not fault) and the post-state is the pre-state. -/
theorem freeifaddrs_is_noop (ifa : Ptr) (s : State) :
    freeifaddrs ifa s = some ((), s) ∧ freeifaddrs .null s = some ((), s) :=
  ⟨rfl, rfl⟩

/-- Claim C6: at process start `stdin`, `stdout` and `stderr` hold the
addresses of slots 0, 1 and 2 of `__sF`, and the three indices are within the
declared size 3 of the table. -/
theorem stream_vars_alias_sF_slots (env : State) :
    (initialState env).load (.loc stdin) = some (.ptr (__sF ⟨0, by decide⟩)) ∧
    (initialState env).load (.loc stdout) = some (.ptr (__sF ⟨1, by decide⟩)) ∧
    (initialState env).load (.loc stderr) = some (.ptr (__sF ⟨2, by decide⟩)) ∧
    __sF ⟨0, by decide⟩ = .loc ⟨.sF_table, 0⟩ ∧
    __sF ⟨1, by decide⟩ = .loc ⟨.sF_table, 1⟩ ∧
    __sF ⟨2, by decide⟩ = .loc ⟨.sF_table, 2⟩ ∧
    __sF_size = 3 ∧ 0 < __sF_size ∧ 1 < __sF_size ∧ 2 < __sF_size := by
  refine ⟨?_, ?_, ?_, rfl, rfl, rfl, rfl, by decide, by decide, by decide⟩
  · simp [State.load, initialState]
  · simp [State.load, initialState, stdin, stdout]
  · simp [State.load, initialState, stdin, stdout, stderr]

/-- Claim C10: the initial values of `stdin`, `stdout` and `stderr` are
pairwise distinct, the addresses of different slots of `__sF` being
different. -/
theorem stream_vars_pairwise_distinct (env : State) :
    (∀ i j : Fin __sF_size, __sF i = __sF j → i = j) ∧
    (initialState env).load (.loc stdin) ≠ (initialState env).load (.loc stdout) ∧
    (initialState env).load (.loc stdout) ≠ (initialState env).load (.loc stderr) ∧
    (initialState env).load (.loc stdin) ≠ (initialState env).load (.loc stderr) := by
  refine ⟨?_, ?_, ?_, ?_⟩
  · intro i j h
    simp only [__sF, Ptr.loc.injEq, Loc.mk.injEq, true_and] at h
    exact Fin.ext h
  · simp [State.load, initialState, stdin, stdout, __sF]
  · simp [State.load, initialState, stdin, stdout, stderr, __sF]
  · simp [State.load, initialState, stdin, stdout, stderr, __sF]

/-! ## The error-string shim -/

/-- The primitive `strerror_r` of `L` writes only inside the buffer it is
given: a call with capacity `buflen` changes no location other than the cells
`buf + k` with `k < buflen`. -/
def WritesWithinCapacity {w : Nat} (L : Libc w) : Prop :=
  ∀ (errnum : Int) (buf : Ptr) (buflen : Nat) (s : State) (status : Int) (s' : State),
    L.strerror_r errnum buf buflen s = some (status, s') →
    ∀ l : Loc, (∀ k, k < buflen → buf.add k ≠ .loc l) → s'.mem l = s.mem l

theorem storeBytes_frame (bs : List Nat) :
    ∀ (s : State) (l : Loc) (s' : State), storeBytes s l bs = some s' →
      ∀ k : Loc, (∀ i, i < bs.length → (⟨l.blk, l.off + i⟩ : Loc) ≠ k) →
        s'.mem k = s.mem k := by
  induction bs with
  | nil =>
    intro s l s' h k _
    simp only [storeBytes, Option.some.injEq] at h
    rw [h]
  | cons b bs ih =>
    intro s l s' h k hk
    unfold storeBytes at h
    split at h
    · exact absurd h (by simp)
    · next t ht =>
      have h1 : s'.mem k = t.mem k := by
        apply ih t ⟨l.blk, l.off + 1⟩ s' h k
        intro i hi
        have := hk (i + 1) (by simp only [List.length_cons]; omega)
        simpa [Nat.add_assoc, Nat.add_comm 1 i] using this
      have h2 : t.mem k = s.mem k := by
        apply State.store_frame s _ _ t ht k
        have := hk 0 (by simp)
        intro e
        apply this
        simpa using (Ptr.loc.inj e).symm
      rw [h1, h2]

theorem ref_strerror_r_writes_within (w : Nat) : WritesWithinCapacity (refLibc w) := by
  intro errnum buf buflen s status s' h l hl
  simp only [refLibc, ref_strerror_r] at h
  split at h
  · simp only [Option.some.injEq, Prod.mk.injEq] at h
    rw [h.2]
  · next hne =>
    split at h
    · exact absurd h (by simp)
    · next b =>
      split at h
      · exact absurd h (by simp)
      · next t ht =>
        simp only [Option.some.injEq, Prod.mk.injEq] at h
        rw [← h.2]
        apply storeBytes_frame _ s b t ht l
        intro i hi
        simp only [List.length_append, List.length_take, List.length_singleton] at hi
        have := hl i (by omega)
        simpa [Ptr.add] using this

/-- Claim C2: whatever status the underlying `strerror_r` returns for
`errnum`, `buf` and `buflen`, `__gnu_strerror_r` returns, and the pointer it
returns is exactly `buf`. -/
theorem gnu_strerror_r_returns_buf {w : Nat} (L : Libc w) (errnum : Int) (buf : Ptr)
    (buflen : Nat) (s : State) (status : Int) (s' : State)
    (hprim : L.strerror_r errnum buf buflen s = some (status, s')) :
    __gnu_strerror_r L errnum buf buflen s = some (buf, s') ∧
    (∀ (r : Ptr) (t : State), __gnu_strerror_r L errnum buf buflen s = some (r, t) → r = buf) := by
  have h : __gnu_strerror_r L errnum buf buflen s = some (buf, s') := by
    simp [__gnu_strerror_r, hprim]
  refine ⟨h, ?_⟩
  intro r t hr
  rw [h] at hr
  simp only [Option.some.injEq, Prod.mk.injEq] at hr
  exact hr.1.symm

/-- Evaluation of `gnu_strerror_r_returns_buf` with the reference primitive:
an unknown error code and a capacity of 4 (status `ERANGE`). -/
theorem gnu_strerror_r_returns_buf_witness :
    ∃ s', (refLibc 32).strerror_r 777 (.loc ⟨.other 2, 0⟩) 4 sampleState = some (ERANGE, s') ∧
      __gnu_strerror_r (refLibc 32) 777 (.loc ⟨.other 2, 0⟩) 4 sampleState
        = some (.loc ⟨.other 2, 0⟩, s') :=
  ⟨_, rfl, (gnu_strerror_r_returns_buf (refLibc 32) 777 (.loc ⟨.other 2, 0⟩) 4 sampleState
    ERANGE _ rfl).1⟩

/-- Claim C8: `__gnu_strerror_r` delegates entirely to `strerror_r`: the
state it leaves (the buffer contents in particular) is the state the single
call `strerror_r errnum buf buflen` leaves.  Hence, for a primitive that
writes only the first `buflen` cells of `buf`, whenever the primitive returns
the shim returns, changes no location outside these cells, changes no cell
at an offset `k ≥ buflen`, and for `buflen = 0` leaves the buffer unchanged. -/
theorem gnu_strerror_r_delegates {w : Nat} (L : Libc w) (errnum : Int) (buf : Ptr)
    (buflen : Nat) (s : State) :
    (__gnu_strerror_r L errnum buf buflen s).map Prod.snd
      = (L.strerror_r errnum buf buflen s).map Prod.snd ∧
    (WritesWithinCapacity L →
      ∀ (status : Int) (s' : State), L.strerror_r errnum buf buflen s = some (status, s') →
        __gnu_strerror_r L errnum buf buflen s = some (buf, s') ∧
        (∀ l : Loc, (∀ k, k < buflen → buf.add k ≠ .loc l) → s'.mem l = s.mem l) ∧
        (∀ k, buflen ≤ k → s'.load (buf.add k) = s.load (buf.add k)) ∧
        (buflen = 0 → ∀ k, s'.load (buf.add k) = s.load (buf.add k))) := by
  constructor
  · unfold __gnu_strerror_r
    cases L.strerror_r errnum buf buflen s with
    | none => rfl
    | some r => rfl
  · intro hL status s' hprim
    have hframe := hL errnum buf buflen s status s' hprim
    have hbeyond : ∀ k, buflen ≤ k → s'.load (buf.add k) = s.load (buf.add k) := by
      intro k hk
      cases buf with
      | null => rfl
      | loc b =>
        simp only [Ptr.add, State.load]
        apply hframe
        intro i hi e
        simp only [Ptr.add, Ptr.loc.injEq, Loc.mk.injEq, true_and] at e
        omega
    refine ⟨by simp [__gnu_strerror_r, hprim], hframe, hbeyond, ?_⟩
    intro h0 k
    exact hbeyond k (by omega)

/-- Evaluation of `gnu_strerror_r_delegates` with the reference primitive, for
error code 1 and the 8-byte buffer of the sample process. -/
theorem gnu_strerror_r_delegates_witness :
    ∃ s', (refLibc 32).strerror_r 1 (.loc ⟨.other 2, 0⟩) 8 sampleState = some (ERANGE, s') ∧
      (__gnu_strerror_r (refLibc 32) 1 (.loc ⟨.other 2, 0⟩) 8 sampleState
          = some (.loc ⟨.other 2, 0⟩, s') ∧
        (∀ l : Loc, (∀ k, k < 8 → (Ptr.loc ⟨.other 2, 0⟩).add k ≠ .loc l) →
          s'.mem l = sampleState.mem l) ∧
        (∀ k, 8 ≤ k → s'.load ((Ptr.loc ⟨.other 2, 0⟩).add k)
          = sampleState.load ((Ptr.loc ⟨.other 2, 0⟩).add k)) ∧
        ((8 : Nat) = 0 → ∀ k, s'.load ((Ptr.loc ⟨.other 2, 0⟩).add k)
          = sampleState.load ((Ptr.loc ⟨.other 2, 0⟩).add k))) :=
  ⟨_, rfl, (gnu_strerror_r_delegates (refLibc 32) 1 (.loc ⟨.other 2, 0⟩) 8 sampleState).2
    (ref_strerror_r_writes_within 32) ERANGE _ rfl⟩

/-- The reference primitive, called through the shim with error code 1 and
capacity 8, leaves the first seven characters of the message and a NUL in the
buffer; with capacity 0 it leaves the buffer as it was. -/
theorem gnu_strerror_r_truncates_example :
    ((__gnu_strerror_r (refLibc 32) 1 (.loc ⟨.other 2, 0⟩) 8 sampleState).map
        fun r => (List.range 8).map fun k => r.2.load ((Ptr.loc ⟨.other 2, 0⟩).add k))
      = some [some (.byte 79), some (.byte 112), some (.byte 101), some (.byte 114),
          some (.byte 97), some (.byte 116), some (.byte 105), some (.byte 0)] ∧
    ((__gnu_strerror_r (refLibc 32) 1 (.loc ⟨.other 2, 0⟩) 0 sampleState).map
        fun r => (List.range 8).map fun k => r.2.load ((Ptr.loc ⟨.other 2, 0⟩).add k))
      = some (List.replicate 8 (some (.byte 170))) := by
  constructor <;> decide

/-! ## The wide file-offset accessor -/

theorem off_t_cast_of_isLong (w : Nat) (hw : w ≤ _FILE_OFFSET_BITS) (v : Int)
    (hv : isLong w v) : off_t_cast v = v := by
  have hp : (2 : Int) ^ (w - 1) ≤ 2 ^ 63 :=
    pow_le_pow_right₀ (by norm_num) (by unfold _FILE_OFFSET_BITS at hw; omega)
  unfold isLong LONG_MIN LONG_MAX at hv
  obtain ⟨hlo, hhi⟩ := hv
  unfold off_t_cast wrapSigned _FILE_OFFSET_BITS
  have e63 : (2 : Int) ^ 63 = 9223372036854775808 := by norm_num
  have e64 : (2 : Int) ^ 64 = 18446744073709551616 := by norm_num
  simp only [show 64 - 1 = 63 from rfl, e63, e64] at hp ⊢
  rw [Int.emod_eq_of_lt (by omega) (by omega)]
  omega

/-- With a `long` no wider than `off_t`, whatever `ftello64` returns is a
value of a `long`: no platform `ftell` lets it return a larger offset. -/
theorem ftello64_result_isLong {w : Nat} (hw : w ≤ _FILE_OFFSET_BITS) (L : Libc w)
    (stream : Ptr) (s : State) (r : Int) (s' : State)
    (h : ftello64 L stream s = some (r, s')) : isLong w r := by
  unfold ftello64 at h
  split at h
  · exact absurd h (by simp)
  · next v t hv =>
    simp only [Option.some.injEq, Prod.mk.injEq] at h
    have hl := L.ftell_long stream s v t hv
    rw [← h.1, off_t_cast_of_isLong w hw v hl]
    exact hl

/-- Claim C4: `ftello64` mirrors `ftell`: for a `long` no wider than the
64-bit `off_t`, whenever `ftell stream` returns the `long` value `v`,
`ftello64 stream` returns the integer `v` itself (the cast preserves the
value); its result is negative exactly when `v` is, and the error value -1 is
returned as -1. -/
theorem ftello64_mirrors_ftell {w : Nat} (hw : w ≤ _FILE_OFFSET_BITS) (L : Libc w)
    (stream : Ptr) (s : State) (v : Int) (s' : State)
    (hprim : L.ftell stream s = some (v, s')) :
    ftello64 L stream s = some (v, s') ∧
    off_t_cast v = v ∧
    (∀ (r : Int) (t : State), ftello64 L stream s = some (r, t) → (r < 0 ↔ v < 0)) ∧
    (v = -1 → ftello64 L stream s = some (-1, s')) := by
  have hcast := off_t_cast_of_isLong w hw v (L.ftell_long stream s v s' hprim)
  have h : ftello64 L stream s = some (v, s') := by
    simp [ftello64, hprim, hcast]
  refine ⟨h, hcast, ?_, ?_⟩
  · intro r t hr
    rw [h] at hr
    simp only [Option.some.injEq, Prod.mk.injEq] at hr
    rw [hr.1]
  · intro hv
    rw [h, hv]

/-- Evaluation of `ftello64_mirrors_ftell` with the reference `ftell` and a
32-bit `long`, on a stream whose position `2^31` makes `ftell` return -1. -/
theorem ftello64_mirrors_ftell_witness :
    (refLibc 32).ftell (.loc ⟨.other 3, 0⟩) sampleState = some (-1, sampleState) ∧
    (ftello64 (refLibc 32) (.loc ⟨.other 3, 0⟩) sampleState = some (-1, sampleState) ∧
      off_t_cast (-1) = -1 ∧
      (∀ (r : Int) (t : State),
        ftello64 (refLibc 32) (.loc ⟨.other 3, 0⟩) sampleState = some (r, t) →
          (r < 0 ↔ (-1 : Int) < 0)) ∧
      ((-1 : Int) = -1 →
        ftello64 (refLibc 32) (.loc ⟨.other 3, 0⟩) sampleState = some (-1, sampleState))) :=
  ⟨rfl, ftello64_mirrors_ftell (by decide) (refLibc 32) (.loc ⟨.other 3, 0⟩) sampleState
    (-1) sampleState rfl⟩

/-- Counterexample to claim C3 as stated: with a 32-bit `long`, for a stream
advanced from offset 0 by `N = 2^31` bytes (an offset within the range of a
64-bit `off_t`), `ftello64` returns -1 and not `N`. -/
theorem ftello64_offset_beyond_long_counterexample :
    sampleState.load (.loc ⟨.other 3, 0⟩) = some (.file (2 ^ 31)) ∧
    (0 : Int) ≤ 2 ^ 31 ∧ (2 : Int) ^ 31 ≤ 2 ^ (_FILE_OFFSET_BITS - 1) - 1 ∧
    (ftello64 (refLibc 32) (.loc ⟨.other 3, 0⟩) sampleState).map Prod.fst = some (-1) ∧
    (ftello64 (refLibc 32) (.loc ⟨.other 3, 0⟩) sampleState).map Prod.fst
      ≠ some ((2 : Int) ^ 31) := by
  refine ⟨by decide, by decide, by decide, by decide, by decide⟩

/-- Claim C3, amended: for a stream positioned at offset 0 and then advanced
by `N` bytes, `ftello64 stream` returns `N` for every `N ≥ 0` in the range of
a `long` (`N ≤ LONG_MAX`), the `long` being no wider than the 64-bit `off_t`;
the state is unchanged. -/
theorem ftello64_returns_offset_in_long_range (w : Nat) (hw : w ≤ _FILE_OFFSET_BITS)
    (stream : Ptr) (s : State) (N : Nat)
    (hpos : s.load stream = some (.file N)) (hN : (N : Int) ≤ LONG_MAX w) :
    ftello64 (refLibc w) stream s = some ((N : Int), s) := by
  have hprim : (refLibc w).ftell stream s = some ((N : Int), s) := by
    simp [refLibc, ref_ftell, hpos, hN]
  have hcast := off_t_cast_of_isLong w hw N ((refLibc w).ftell_long stream s N s hprim)
  simp [ftello64, hprim, hcast]

/-- Evaluation of `ftello64_returns_offset_in_long_range` with a 32-bit `long`
on a stream advanced by 1000 bytes. -/
theorem ftello64_returns_offset_in_long_range_witness :
    sampleState.load (.loc ⟨.other 4, 0⟩) = some (.file 1000) ∧
    ((1000 : Nat) : Int) ≤ LONG_MAX 32 ∧
    ftello64 (refLibc 32) (.loc ⟨.other 4, 0⟩) sampleState = some (((1000 : Nat) : Int), sampleState) :=
  ⟨by decide, by decide,
    ftello64_returns_offset_in_long_range 32 (by decide) (.loc ⟨.other 4, 0⟩) sampleState 1000
      (by decide) (by decide)⟩

/-! ## Lifetime of the stream variables -/

/-- The call is not directed at the three stream variables: `getifaddrs` is
not given the address of one of them, and the platform primitive behind
`__gnu_strerror_r` or `ftello64` leaves them as they are when called with
these arguments. -/
def Call.sparesStreamVars {w : Nat} (L : Libc w) : Call → Prop
  | .gnu_strerror_r errnum buf buflen =>
    ∀ (s : State) (status : Int) (s' : State),
      L.strerror_r errnum buf buflen s = some (status, s') → sameStreamVars s s'
  | .getifaddrs ifap => isStreamVar ifap = false
  | .freeifaddrs _ => True
  | .ftello64 stream =>
    ∀ (s : State) (v : Int) (s' : State), L.ftell stream s = some (v, s') → sameStreamVars s s'

theorem sameStreamVars_refl (s : State) : sameStreamVars s s := ⟨rfl, rfl, rfl⟩

theorem sameStreamVars_trans (s t u : State) (h1 : sameStreamVars s t)
    (h2 : sameStreamVars t u) : sameStreamVars s u :=
  ⟨h2.1.trans h1.1, h2.2.1.trans h1.2.1, h2.2.2.trans h1.2.2⟩

theorem exec_sameStreamVars {w : Nat} (L : Libc w) (c : Call) (s s' : State)
    (hc : c.sparesStreamVars L) (h : exec L c s = some s') : sameStreamVars s s' := by
  cases c with
  | gnu_strerror_r errnum buf buflen =>
    simp only [exec, __gnu_strerror_r] at h
    cases hprim : L.strerror_r errnum buf buflen s with
    | none => simp [hprim] at h
    | some r =>
      obtain ⟨status, t⟩ := r
      simp only [hprim, Option.map_some', Option.some.injEq] at h
      rw [← h]
      exact hc s status t hprim
  | getifaddrs ifap =>
    simp only [exec, getifaddrs] at h
    cases hst : s.store ifap (.ptr .null) with
    | none => simp [hst] at h
    | some t =>
      simp only [hst, Option.map_some', Option.some.injEq] at h
      rw [← h]
      exact sameStreamVars_of_frame ifap s t (State.store_frame s _ _ t hst) hc
  | freeifaddrs ifa =>
    simp only [exec, freeifaddrs, Option.map_some', Option.some.injEq] at h
    rw [← h]
    exact sameStreamVars_refl s
  | ftello64 stream =>
    simp only [exec, ftello64] at h
    cases hprim : L.ftell stream s with
    | none => simp [hprim] at h
    | some r =>
      obtain ⟨v, t⟩ := r
      simp only [hprim, Option.map_some', Option.some.injEq] at h
      rw [← h]
      exact hc s v t hprim

theorem run_sameStreamVars {w : Nat} (L : Libc w) (calls : List Call) :
    ∀ (s s' : State), (∀ c ∈ calls, c.sparesStreamVars L) → run L calls s = some s' →
      sameStreamVars s s' := by
  induction calls with
  | nil =>
    intro s s' _ h
    simp only [run, Option.some.injEq] at h
    rw [← h]
    exact sameStreamVars_refl s
  | cons c cs ih =>
    intro s s' hcs h
    unfold run at h
    split at h
    · exact absurd h (by simp)
    · next t ht =>
      exact sameStreamVars_trans s t s'
        (exec_sameStreamVars L c s t (hcs c (List.mem_cons_self c cs)) ht)
        (ih t s' (fun d hd => hcs d (List.mem_cons_of_mem c hd)) h)

/-- The reference `strerror_r` spares the stream variables when the buffer
lies in another object. -/
theorem ref_strerror_r_spares (w : Nat) (errnum : Int) (n : Nat) (off : Nat) (buflen : Nat) :
    (Call.gnu_strerror_r errnum (.loc ⟨.other n, off⟩) buflen).sparesStreamVars (refLibc w) := by
  intro s status s' h
  have hframe := ref_strerror_r_writes_within w errnum _ buflen s status s' h
  refine ⟨hframe _ ?_, hframe _ ?_, hframe _ ?_⟩ <;>
  · intro k _ e
    simp [Ptr.add, stdin, stdout, stderr] at e

/-- The reference `ftell` spares the stream variables: it changes nothing. -/
theorem ref_ftell_spares (w : Nat) (stream : Ptr) :
    (Call.ftello64 stream).sparesStreamVars (refLibc w) := by
  intro s v s' h
  simp only [refLibc, ref_ftell] at h
  split at h
  · exact absurd h (by simp)
  · split at h <;>
    · simp only [Option.some.injEq, Prod.mk.injEq] at h
      rw [← h.2]
      exact sameStreamVars_refl s
  · simp only [Option.some.injEq, Prod.mk.injEq] at h
    rw [← h.2]
    exact sameStreamVars_refl s

/-- Counterexample to claim C7 as stated (calls with arbitrary arguments):
from the initial state of the sample process, the single call
`getifaddrs(&stdin)` leaves `NULL` in `stdin`, and the single call
`__gnu_strerror_r(1, &stdout, 1)` leaves a NUL character in `stdout`; neither
variable holds its initial value afterwards. -/
theorem stream_vars_reassigned_counterexample :
    sampleState.mem stdin = some (.ptr (.loc ⟨.sF_table, 0⟩)) ∧
    (run (refLibc 32) [Call.getifaddrs (.loc stdin)] sampleState).map (fun t => t.mem stdin)
      = some (some (.ptr .null)) ∧
    sampleState.mem stdout = some (.ptr (.loc ⟨.sF_table, 1⟩)) ∧
    (run (refLibc 32) [Call.gnu_strerror_r 1 (.loc stdout) 1] sampleState).map
        (fun t => t.mem stdout)
      = some (some (.byte 0)) := by
  refine ⟨by decide, by decide, by decide, by decide⟩

/-- Claim C7, amended: `stdin`, `stdout` and `stderr` hold non-null pointers in
the initial state, and in every state reached from it by a finite sequence of
calls of `__gnu_strerror_r`, `getifaddrs`, `freeifaddrs` and `ftello64`, none
of which is directed at the three variables themselves, each of them still
holds its initial value. -/
theorem stream_vars_keep_initial_values {w : Nat} (L : Libc w) (env : State)
    (calls : List Call) (s' : State)
    (hcalls : ∀ c ∈ calls, c.sparesStreamVars L)
    (hrun : run L calls (initialState env) = some s') :
    (∃ a b c : Ptr, (initialState env).mem stdin = some (.ptr a) ∧ a ≠ .null ∧
      (initialState env).mem stdout = some (.ptr b) ∧ b ≠ .null ∧
      (initialState env).mem stderr = some (.ptr c) ∧ c ≠ .null) ∧
    s'.mem stdin = (initialState env).mem stdin ∧
    s'.mem stdout = (initialState env).mem stdout ∧
    s'.mem stderr = (initialState env).mem stderr := by
  refine ⟨⟨__sF ⟨0, by decide⟩, __sF ⟨1, by decide⟩, __sF ⟨2, by decide⟩, ?_⟩,
    run_sameStreamVars L calls (initialState env) s' hcalls hrun⟩
  simp [initialState, stdin, stdout, stderr, __sF]

/-- The calls of the evaluation below: one of each operation, on objects of
the sample process other than the stream variables. -/
def sampleCalls : List Call :=
  [.gnu_strerror_r 1 (.loc ⟨.other 2, 0⟩) 8, .getifaddrs (.loc ⟨.other 0, 0⟩),
    .freeifaddrs .null, .ftello64 (.loc ⟨.other 3, 0⟩)]

theorem sampleCalls_spare : ∀ c ∈ sampleCalls, c.sparesStreamVars (refLibc 32) := by
  intro c hc
  simp only [sampleCalls, List.mem_cons, List.mem_singleton, List.not_mem_nil, or_false] at hc
  rcases hc with rfl | rfl | rfl | rfl
  · exact ref_strerror_r_spares 32 1 2 0 8
  · show isStreamVar _ = false
    decide
  · trivial
  · exact ref_ftell_spares 32 _

/-- Evaluation of `stream_vars_keep_initial_values` on the sample process with
the reference primitives. -/
theorem stream_vars_keep_initial_values_witness :
    ∃ s', run (refLibc 32) sampleCalls (initialState sampleEnv) = some s' ∧
      ((∃ a b c : Ptr, (initialState sampleEnv).mem stdin = some (.ptr a) ∧ a ≠ .null ∧
        (initialState sampleEnv).mem stdout = some (.ptr b) ∧ b ≠ .null ∧
        (initialState sampleEnv).mem stderr = some (.ptr c) ∧ c ≠ .null) ∧
      s'.mem stdin = (initialState sampleEnv).mem stdin ∧
      s'.mem stdout = (initialState sampleEnv).mem stdout ∧
      s'.mem stderr = (initialState sampleEnv).mem stderr) :=
  ⟨_, rfl, stream_vars_keep_initial_values (refLibc 32) sampleEnv sampleCalls _
    sampleCalls_spare rfl⟩

end GnuShim
